import Mathlib

/-!
# Verification of the Synta action-dispatch and service-lifecycle subsystem

A shallow embedding, in Lean 4, of the core of the `SyntaApp/app` repository:

* the `Ratelimit` decorator (`src/main/types/abstracts/Namespace.ts`),
* the `Namespace` action registry (`src/main/types/abstracts/Namespace.ts`),
* the `IPCHandler` dispatcher (`src/main/classes/services/IPCHandler.ts`),
* the `Logger` (`src/main/classes/services/Logger.ts`),
* both `ServiceManager` variants (`src/main/classes/core/ServiceManager.ts`
  and the variant bundled with `src/main/classes/core/App.ts`),
* the `Settings` deep-merge service (`src/main/classes/services/Settings.ts`).

JavaScript values that the code manipulates (JSON objects, timestamps,
thrown errors) are modelled explicitly; machine-level details that no claim
depends on (wall-clock ISO strings, process ids) are omitted and noted at
the definitions concerned.
-/

set_option autoImplicit false

namespace Synta

/-! ## JSON values (`src/main/types/types/JSON.ts` and plain JS data) -/

/-- A JSON/JS data value.  Objects are ordered association lists, matching
JavaScript's string-keyed insertion-ordered objects. -/
inductive Json where
  | null
  | bool (b : Bool)
  | num (n : Int)
  | str (s : String)
  | arr (elems : List Json)
  | obj (entries : List (String × Json))
deriving Repr

/-- `typeof value === "object" && value !== null && !Array.isArray(value)`:
the `isPlainObject` check of `Settings.ts` applied to a defined value. -/
def isPlainObjectJ : Json → Bool
  | .obj _ => true
  | _ => false

/-- First-match association-list lookup: JS `obj[key]`, `none` = `undefined`. -/
def getKey : List (String × Json) → String → Option Json
  | [], _ => none
  | (k', v) :: rest, k => if k' = k then some v else getKey rest k

/-- JS `obj[key] = v` on an insertion-ordered object: overwrite an existing
entry in place, otherwise append at the end. -/
def setKey : List (String × Json) → String → Json → List (String × Json)
  | [], k, v => [(k, v)]
  | (k', v') :: rest, k, v =>
    if k' = k then (k, v) :: rest else (k', v') :: setKey rest k v

/-! ## ActionResponse (`src/main/types/interfaces/ActionResponse.ts`) -/

/-- `interface ActionResponse { status: number; message?: string; data?: unknown }`. -/
structure ActionResponse where
  status : Int
  message : Option String := none
  data : Option Json := none
deriving Repr

/-! ## The `Ratelimit` decorator (`src/main/types/abstracts/Namespace.ts`, lines 127-175)

The decorator keeps, per decorated action, a map from namespace instance to a
list of call timestamps; the embedding below is the body of the replacement
`descriptor.value`, acting on the stored list for one `(instance, action)`
pair.  Timestamps are `Int` so that the arithmetic (`now - timestamp < ms`,
`ms - (now - oldestCall)`) is exactly JS number arithmetic on integral inputs. -/

/-- `timestamps.filter((timestamp) => now - timestamp < ms)`: the working
list after evicting entries that fell out of the window. -/
def surviving (ms : Int) (stored : List Int) (now : Int) : List Int :=
  stored.filter (fun t => now - t < ms)

/-- `{...msg, message: msg.message + ". Try again in " + waitTime + "ms"}`
(JS template-string semantics: an absent `message` prints as `"undefined"`). -/
def rejectionPayload (msg : ActionResponse) (waitTime : Int) : ActionResponse :=
  { msg with
    message := some ((match msg.message with
        | some s => s
        | none => "undefined") ++ ". Try again in " ++ toString waitTime ++ "ms") }

/-- Outcome of one guarded call: either the rejection payload is returned
synchronously (carrying the computed `waitTime`), or the wrapped method runs. -/
inductive RLOutcome where
  | rejected (waitTime : Int) (payload : ActionResponse)
  | invoked
deriving Repr

/-- One guarded call together with the `callTimestamps` entry left behind. -/
structure RLStep where
  outcome : RLOutcome
  stored : List Int
deriving Repr

/-- The body of the rate-limited `descriptor.value`: evict old timestamps,
reject (leaving the stored list untouched — `callTimestamps.set` is only
reached on the success path) or record `now` and invoke the method. -/
def ratelimitStep (ms : Int) (every : Nat) (msg : ActionResponse)
    (stored : List Int) (now : Int) : RLStep :=
  let timestamps := surviving ms stored now
  if every ≤ timestamps.length then
    let oldestCall := timestamps.headD 0
    let waitTime := ms - (now - oldestCall)
    { outcome := RLOutcome.rejected waitTime (rejectionPayload msg waitTime),
      stored := stored }
  else
    { outcome := RLOutcome.invoked, stored := timestamps ++ [now] }

/-- The default rejection template `{ status: 429, message: "Rate limit exceeded" }`. -/
def rlDefaultMsg : ActionResponse := { status := 429, message := some "Rate limit exceeded" }

theorem surviving_sub_lt {ms now t : Int} {stored : List Int}
    (h : t ∈ surviving ms stored now) : now - t < ms := by
  have := List.of_mem_filter h
  exact of_decide_eq_true this

theorem surviving_sublist {ms now : Int} {stored : List Int} {t : Int}
    (h : t ∈ surviving ms stored now) : t ∈ stored :=
  List.mem_of_mem_filter h

/-- **C4** — Every call through `Ratelimit(window, max)`: stale timestamps are
discarded from the working list; when the surviving count reaches `max` the
call is rejected without running the action, with
`retryAfter = window - (now - oldestSurviving)`, `0 < retryAfter ≤ window`,
and the stored window untouched; otherwise `now` is appended and the action
runs.  The final conjuncts replay the spec scenario `window=1000ms, max=3`:
three immediate calls succeed, a fourth inside the window is rejected with
`retryAfter = 995 ∈ (0, 1000]`, and a call after the window elapses succeeds. -/
theorem ratelimit_spec (ms : Int) (every : Nat) (msg : ActionResponse)
    (stored : List Int) (now : Int)
    (hevery : 0 < every) (hmono : ∀ t ∈ stored, t ≤ now) :
    (every ≤ (surviving ms stored now).length →
      ratelimitStep ms every msg stored now =
        { outcome := RLOutcome.rejected
            (ms - (now - (surviving ms stored now).headD 0))
            (rejectionPayload msg (ms - (now - (surviving ms stored now).headD 0))),
          stored := stored } ∧
      0 < ms - (now - (surviving ms stored now).headD 0) ∧
      ms - (now - (surviving ms stored now).headD 0) ≤ ms) ∧
    ((surviving ms stored now).length < every →
      ratelimitStep ms every msg stored now =
        { outcome := RLOutcome.invoked,
          stored := surviving ms stored now ++ [now] }) ∧
    (ratelimitStep 1000 3 rlDefaultMsg [] 0 = ⟨RLOutcome.invoked, [0]⟩ ∧
     ratelimitStep 1000 3 rlDefaultMsg [0] 0 = ⟨RLOutcome.invoked, [0, 0]⟩ ∧
     ratelimitStep 1000 3 rlDefaultMsg [0, 0] 0 = ⟨RLOutcome.invoked, [0, 0, 0]⟩ ∧
     ratelimitStep 1000 3 rlDefaultMsg [0, 0, 0] 5 =
       ⟨RLOutcome.rejected 995 (rejectionPayload rlDefaultMsg 995), [0, 0, 0]⟩ ∧
     (0 : Int) < 995 ∧ (995 : Int) ≤ 1000 ∧
     ratelimitStep 1000 3 rlDefaultMsg [0, 0, 0] 1000 = ⟨RLOutcome.invoked, [1000]⟩) := by
  refine ⟨fun hfull => ?_, fun hroom => ?_, ?_⟩
  · have hne : surviving ms stored now ≠ [] := by
      intro hnil
      rw [hnil] at hfull
      simp at hfull
      omega
    have hmem : (surviving ms stored now).headD 0 ∈ surviving ms stored now := by
      obtain ⟨x, xs, hx⟩ := List.exists_cons_of_ne_nil hne
      rw [hx]
      simp
    have hlt : now - (surviving ms stored now).headD 0 < ms := surviving_sub_lt hmem
    have hle : (surviving ms stored now).headD 0 ≤ now :=
      hmono _ (surviving_sublist hmem)
    refine ⟨?_, by omega, by omega⟩
    unfold ratelimitStep
    simp only [if_pos hfull]
  · unfold ratelimitStep
    simp only [if_neg (by omega : ¬ every ≤ (surviving ms stored now).length)]
  · refine ⟨rfl, rfl, rfl, ?_, by norm_num, by norm_num, ?_⟩ <;> rfl

/-- Closed instantiation of `ratelimit_spec` at `window = 1000`, `max = 3`,
stored window `[0, 0, 0]`, `now = 5` (the rejection branch applies). -/
theorem ratelimit_spec_witness :
    ratelimitStep 1000 3 rlDefaultMsg [0, 0, 0] 5 =
      { outcome := RLOutcome.rejected
          (1000 - (5 - (surviving 1000 [0, 0, 0] 5).headD 0))
          (rejectionPayload rlDefaultMsg (1000 - (5 - (surviving 1000 [0, 0, 0] 5).headD 0))),
        stored := [0, 0, 0] } ∧
    0 < 1000 - (5 - (surviving 1000 [0, 0, 0] 5).headD 0) ∧
    1000 - (5 - (surviving 1000 [0, 0, 0] 5).headD 0) ≤ 1000 :=
  (ratelimit_spec 1000 3 rlDefaultMsg [0, 0, 0] 5 (by norm_num)
    (by intro t ht; simp at ht; omega)).1 (by decide)

/-! ## Logger (`src/main/classes/services/Logger.ts`)

The structured logger: a level, a message and a free-form context map per
record.  The environment-derived record fields (`ts`, `pid`, `proc`,
`scope`) influence no claim and are omitted from the embedding of
`LogRecord`/`format`.  A transport is a sink that may throw (`Except`). -/

/-- `enum LogLevel { DEBUG = 0, INFO = 1, WARN = 2, ERROR = 3 }`. -/
inductive LogLevel where
  | debugLvl
  | infoLvl
  | warnLvl
  | errorLvl
deriving Repr, DecidableEq

abbrev LogCtx := List (String × Json)

/-- A structured log record (environment-derived fields omitted, see above). -/
structure LogRecord where
  lvl : LogLevel
  msg : String
  ctx : Option LogCtx

/-- A transport: `(rec: LogRecord) => void`, which may throw internally. -/
abbrev Transport := LogRecord → Except String Unit

/-- The `Logger` instance state: the `isDebug` constructor flag and the
ordered transport list. -/
structure Logger where
  isDebug : Bool
  transports : List Transport

/-- What one logging call produces: how many transports were invoked with
the record, and the exception (if any) that escaped to the caller. -/
structure EmitResult where
  delivered : Nat
  thrown : Option String
deriving Repr, DecidableEq

/-- `private format(...)`: builds the record from level, message, context. -/
def Logger.format (lvl : LogLevel) (msg : String) (ctx : Option LogCtx) : LogRecord :=
  { lvl := lvl, msg := msg, ctx := ctx }

/-- `for (const t of this.transports) t(rec);` — the body of `emit`.  The
loop has no `try`/`catch`: a throwing transport stops the iteration and the
exception propagates to the caller. -/
def emitList : List Transport → LogRecord → EmitResult
  | [], _ => ⟨0, none⟩
  | t :: rest, r =>
    match t r with
    | .ok _ => let e := emitList rest r; ⟨e.delivered + 1, e.thrown⟩
    | .error s => ⟨1, some s⟩

/-- `private emit(rec)`. -/
def Logger.emit (lg : Logger) (rec : LogRecord) : EmitResult :=
  emitList lg.transports rec

/-- Truthiness of the expression `this.debug` inside `Logger.route`.  In the
source the guard reads `if (level === LogLevel.DEBUG && !this.debug) return;`
and `debug` is the `debug(msg, ctx)` *method* of the class — a function,
hence always truthy in JavaScript.  The `isDebug` constructor flag is never
consulted by `route`. -/
def debugMemberTruthy : Bool := true

/-- `private route(level, message, ctx)`: the level filter followed by
`format` and `emit`. -/
def Logger.route (lg : Logger) (level : LogLevel) (msg : String)
    (ctx : Option LogCtx) : EmitResult :=
  if level = LogLevel.debugLvl ∧ debugMemberTruthy = false then ⟨0, none⟩
  else lg.emit (Logger.format level msg ctx)

/-- `public debug(msg, ctx)`. -/
def Logger.debugCall (lg : Logger) (msg : String) (ctx : Option LogCtx) : EmitResult :=
  lg.route LogLevel.debugLvl msg ctx

/-- `public info(msg, ctx)`. -/
def Logger.infoCall (lg : Logger) (msg : String) (ctx : Option LogCtx) : EmitResult :=
  lg.route LogLevel.infoLvl msg ctx

/-- `public warn(msg, ctx)`. -/
def Logger.warnCall (lg : Logger) (msg : String) (ctx : Option LogCtx) : EmitResult :=
  lg.route LogLevel.warnLvl msg ctx

/-- `public error(msg, err)` (the `err` sanitisation only shapes the context,
which no claim depends on; the routed level is `ERROR`). -/
def Logger.errorCall (lg : Logger) (msg : String) (ctx : Option LogCtx) : EmitResult :=
  lg.route LogLevel.errorLvl msg ctx

/-- A transport that always succeeds. -/
def okTransport : Transport := fun _ => Except.ok ()

/-- A transport whose body throws. -/
def badTransport : Transport := fun _ => Except.error "sink failure"

/-- **C5** — What the code actually does at the claim's failing input: a
`Logger` constructed with `isDebug = false` and one transport still delivers
a `debug(...)` record to that transport, because `route`'s guard tests the
truthiness of the `debug` method instead of the `isDebug` flag; the
`INFO`/`WARN`/`ERROR` half of the claim holds. -/
theorem logger_debug_filter_code_behavior :
    (Logger.debugCall ⟨false, [okTransport]⟩ "m" none).delivered = 1 ∧
    (Logger.debugCall ⟨false, [okTransport]⟩ "m" none).thrown = none ∧
    (Logger.infoCall ⟨false, [okTransport]⟩ "m" none).delivered = 1 ∧
    (Logger.warnCall ⟨false, [okTransport]⟩ "m" none).delivered = 1 ∧
    (Logger.errorCall ⟨false, [okTransport]⟩ "m" none).delivered = 1 := by
  refine ⟨rfl, rfl, rfl, rfl, rfl⟩

/-- **C6 (counterexample)** — With two transports where the first throws, a
non-filtered `INFO` record is *not* delivered to every remaining transport
with no exception: only the first transport runs and its exception reaches
the caller. -/
theorem logger_emit_isolation_counterexample :
    ¬ ((Logger.infoCall ⟨true, [badTransport, okTransport]⟩ "m" none).delivered = 2 ∧
       (Logger.infoCall ⟨true, [badTransport, okTransport]⟩ "m" none).thrown = none) := by
  intro h
  have : (Logger.infoCall ⟨true, [badTransport, okTransport]⟩ "m" none).delivered = 1 := rfl
  omega

/-- **C6 (amended)** — When a non-filtered record is emitted and an earlier
transport throws, delivery stops at the throwing transport: every transport
before it has received the record, the transports after it are never
invoked, and the exception propagates out of the logging call to the caller. -/
theorem logger_emit_isolation_amended (dbg : Bool) (pre post : List Transport)
    (t : Transport) (lvl : LogLevel) (msg : String) (ctx : Option LogCtx) (s : String)
    (hlvl : lvl ≠ LogLevel.debugLvl)
    (hpre : ∀ t' ∈ pre, t' (Logger.format lvl msg ctx) = Except.ok ())
    (ht : t (Logger.format lvl msg ctx) = Except.error s) :
    (Logger.mk dbg (pre ++ t :: post)).route lvl msg ctx =
      ⟨pre.length + 1, some s⟩ := by
  have hguard : ¬ (lvl = LogLevel.debugLvl ∧ debugMemberTruthy = false) := by
    intro h
    exact hlvl h.1
  rw [Logger.route, if_neg hguard]
  show emitList (pre ++ t :: post) (Logger.format lvl msg ctx) = ⟨pre.length + 1, some s⟩
  induction pre with
  | nil =>
    simp only [List.nil_append, emitList, ht, List.length_nil]
  | cons p ps ih =>
    have hp : p (Logger.format lvl msg ctx) = Except.ok () := hpre p (by simp)
    have ihs := ih (fun t' h' => hpre t' (by simp [h']))
    simp only [List.cons_append, emitList, hp, List.append_eq, ihs, List.length_cons]

/-- Closed instantiation of `logger_emit_isolation_amended`: one succeeding
transport, then a throwing one, then one more that is never reached. -/
theorem logger_emit_isolation_amended_witness :
    (Logger.mk true ([okTransport] ++ badTransport :: [okTransport])).route
        LogLevel.infoLvl "m" none = ⟨[okTransport].length + 1, some "sink failure"⟩ :=
  logger_emit_isolation_amended true [okTransport] [okTransport] badTransport
    LogLevel.infoLvl "m" none "sink failure" (by simp)
    (by intro t' h'; simp at h'; rw [h']; rfl) rfl

/-! ## Service Manager

The repository carries two versions of `ServiceManager`:

* `SM1` — `src/main/classes/core/ServiceManager.ts`: `get` is a bare
  `registry.get(key)` cast, and `init` catches a hook failure, logs it,
  then *rethrows* it (`throw error`), aborting the startup loop;
* `SM2` — the variant bundled in `src/main/classes/core/App.ts`: `get`
  raises `NotReady`/`NotRegistered` errors with a special-cased logger key,
  and `init` catches and logs per-service without rethrowing.

A registered service is modelled by its lifecycle hooks; `Hook.absent`
is a service without an `init` member (`service.init?.()` is a no-op),
`Hook.throws e` a hook whose body throws `e`. -/

/-- Behaviour of one optional lifecycle hook (`init?.()` / `dispose?.()`). -/
inductive Hook where
  | absent
  | succeeds
  | throws (e : String)
deriving Repr, DecidableEq

/-- A registered service: an identifying tag plus its lifecycle hooks. -/
structure Svc where
  tag : String := ""
  initHook : Hook := Hook.absent
  disposeHook : Hook := Hook.absent
deriving Repr, DecidableEq

/-- `Map`-style first-match lookup over the insertion-ordered registry. -/
def regLookup : List (String × Svc) → String → Option Svc
  | [], _ => none
  | (k', v) :: rest, k => if k' = k then some v else regLookup rest k

/-- The `core/ServiceManager.ts` state: the registry map and `isInitialized`. -/
structure SM1 where
  registry : List (String × Svc)
  isInitialized : Bool
deriving Repr, DecidableEq

/-- The `App.ts`-variant state: the registry map and `_ready`. -/
structure SM2 where
  registry : List (String × Svc)
  ready : Bool
deriving Repr, DecidableEq

/-- What `get` can produce: a service instance, JS `undefined` (a missing
`Map` entry read without a guard), or one of the two thrown errors. -/
inductive GetResult where
  | ok (v : Svc)
  | undef
  | errNotReady (key : String)
  | errNotRegistered (key : String)
deriving Repr, DecidableEq

/-- `true` exactly when the lookup threw (`NotReady`/`NotRegistered`). -/
def GetResult.isError : GetResult → Bool
  | .errNotReady _ => true
  | .errNotRegistered _ => true
  | _ => false

/-- `SM1.get`: `return this.registry.get(key) as ServiceMap[T]` — no seal
check, no missing-key check, no logger special case. -/
def SM1.get (sm : SM1) (key : String) : GetResult :=
  match regLookup sm.registry key with
  | some v => GetResult.ok v
  | none => GetResult.undef

/-- The `new Logger().with({ subLogger: true })` substitute produced by the
`SM2` private `logger` getter before the registry is ready. -/
def fallbackLogger : Svc := { tag := "fallback-logger" }

/-- `SM2.get`: the logger key always resolves (real entry when ready,
fallback otherwise); any other key throws `NotReady` before ready and
`NotRegistered` when absent from the sealed registry. -/
def SM2.get (sm : SM2) (key : String) : GetResult :=
  if key = "Logger" then
    if sm.ready = false then GetResult.ok fallbackLogger
    else
      match regLookup sm.registry "Logger" with
      | some v => GetResult.ok v
      | none => GetResult.undef
  else if sm.ready = false then GetResult.errNotReady key
  else
    match regLookup sm.registry key with
    | some v => GetResult.ok v
    | none => GetResult.errNotRegistered key

/-- The `for (const [key, service] of this.registry.entries())` loop of
`SM1.init`: each service's `init?.()` runs in a `try` whose `catch` logs and
then rethrows (`throw error`), so the first failing hook ends the loop.
Returns the keys whose hook call was reached and the rethrown error. -/
def SM1.initLoop : List (String × Svc) → List String × Option String
  | [] => ([], none)
  | (key, svc) :: rest =>
    match svc.initHook with
    | Hook.throws err => ([key], some err)
    | _ =>
      let r := SM1.initLoop rest
      (key :: r.1, r.2)

/-- `SM1.init`: warn-and-return when already initialized, otherwise mark
initialized and run the loop; a hook failure escapes to the caller. -/
def SM1.init (sm : SM1) : SM1 × List String × Option String :=
  if sm.isInitialized then (sm, [], none)
  else
    let r := SM1.initLoop sm.registry
    ({ sm with isInitialized := true }, r.1, r.2)

/-- A log line recorded through the substitute logger during `SM2` lifecycle. -/
inductive SMLogEntry where
  | errLog (msg : String)
  | infoLog (msg : String)
  | warnLog (msg : String)
deriving Repr, DecidableEq

/-- The `SM2.init` loop: `try { await service.init?.() } catch (err) {
this.logger.error(...) } finally { this.logger.info(...) }` — every failure
is caught and logged, the `finally` success line always runs, and the loop
always continues to the next service. -/
def SM2.initLoop : List (String × Svc) → List String × List SMLogEntry
  | [] => ([], [])
  | (key, svc) :: rest =>
    let caught : List SMLogEntry :=
      match svc.initHook with
      | Hook.throws err =>
        [SMLogEntry.errLog ("Error initializing " ++ key ++ ": " ++ err)]
      | _ => []
    let fin := SMLogEntry.infoLog ("Service '" ++ key ++ "' initialized successfully")
    let r := SM2.initLoop rest
    (key :: r.1, caught ++ fin :: r.2)

/-- `SM2.init`: warn-and-return when already ready, otherwise run the loop
over every registered service and only then set `_ready = true`.  No error
component exists in the result: nothing is rethrown. -/
def SM2.init (sm : SM2) : SM2 × List String × List SMLogEntry :=
  if sm.ready then (sm, [], [SMLogEntry.warnLog "Service Manager has already been initialized"])
  else
    let r := SM2.initLoop sm.registry
    ({ sm with ready := true }, r.1, r.2)

/-- **C1 (counterexample)** — In `core/ServiceManager.ts`, with services
`A` (whose init hook throws `"boom"`) then `B` registered, `init()` reaches
`A`'s hook, rethrows its error, and never reaches `B`: the hook failure does
abort the startup loop. -/
theorem sm_init_rethrow_counterexample :
    (SM1.init ⟨[("A", ⟨"A", Hook.throws "boom", Hook.absent⟩),
                ("B", ⟨"B", Hook.succeeds, Hook.absent⟩)], false⟩).2 =
      (["A"], some "boom") ∧
    "B" ∉ (SM1.init ⟨[("A", ⟨"A", Hook.throws "boom", Hook.absent⟩),
                      ("B", ⟨"B", Hook.succeeds, Hook.absent⟩)], false⟩).2.1 := by
  refine ⟨rfl, by decide⟩

/-- **C1 (amended)** — Lifecycle isolation differs between the two
`ServiceManager` versions.  In `core/ServiceManager.ts` (`SM1`) the first
failing hook is caught, logged, and rethrown: `init` returns the error and
the remaining services are never reached.  In the `App.ts` variant (`SM2`)
every registered service's hook is reached, failures are caught and logged
per-service, and nothing is rethrown (the result carries no error at all). -/
theorem sm_init_isolation_amended :
    (∀ (pre post : List (String × Svc)) (k : String) (svc : Svc) (e : String),
      (∀ p ∈ pre, ∀ err, p.2.initHook ≠ Hook.throws err) →
      svc.initHook = Hook.throws e →
      SM1.init ⟨pre ++ (k, svc) :: post, false⟩ =
        (⟨pre ++ (k, svc) :: post, true⟩, pre.map Prod.fst ++ [k], some e)) ∧
    (∀ reg : List (String × Svc),
      (SM2.init ⟨reg, false⟩).2.1 = reg.map Prod.fst ∧
      (SM2.init ⟨reg, false⟩).1 = ⟨reg, true⟩ ∧
      (∀ k svc e, (k, svc) ∈ reg → svc.initHook = Hook.throws e →
        SMLogEntry.errLog ("Error initializing " ++ k ++ ": " ++ e) ∈
          (SM2.init ⟨reg, false⟩).2.2)) := by
  constructor
  · intro pre post k svc e hpre hsvc
    rw [SM1.init]
    simp only [if_neg (by simp : ¬ False)]
    have hloop : ∀ pre : List (String × Svc),
        (∀ p ∈ pre, ∀ err, p.2.initHook ≠ Hook.throws err) →
        SM1.initLoop (pre ++ (k, svc) :: post) = (pre.map Prod.fst ++ [k], some e) := by
      intro pre
      induction pre with
      | nil =>
        intro _
        simp only [List.nil_append, SM1.initLoop, hsvc, List.map_nil]
      | cons p ps ih =>
        intro hp
        have hph : ∀ err, p.2.initHook ≠ Hook.throws err := hp p (by simp)
        have ihs := ih (fun q hq err => hp q (by simp [hq]) err)
        obtain ⟨pk, psvc⟩ := p
        simp only [List.cons_append, SM1.initLoop]
        match hm : psvc.initHook with
        | Hook.absent => simp only [List.append_eq] at ihs; simp [ihs]
        | Hook.succeeds => simp only [List.append_eq] at ihs; simp [ihs]
        | Hook.throws err => exact absurd hm (hph err)
    simp [hloop pre hpre]
  · intro reg
    have hloop : ∀ reg : List (String × Svc),
        (SM2.initLoop reg).1 = reg.map Prod.fst ∧
        (∀ k svc e, (k, svc) ∈ reg → svc.initHook = Hook.throws e →
          SMLogEntry.errLog ("Error initializing " ++ k ++ ": " ++ e) ∈
            (SM2.initLoop reg).2) := by
      intro reg
      induction reg with
      | nil => exact ⟨rfl, by intro k svc e h; simp at h⟩
      | cons p ps ih =>
        obtain ⟨pk, psvc⟩ := p
        refine ⟨by simp [SM2.initLoop, ih.1], ?_⟩
        intro k svc e hmem hhook
        rcases List.mem_cons.mp hmem with hhd | htl
        · injection hhd with hk hs
          subst hs
          subst hk
          simp [SM2.initLoop, hhook]
        · have := ih.2 k svc e htl hhook
          simp only [SM2.initLoop, List.mem_append, List.mem_cons]
          right; right
          exact this
    refine ⟨?_, ?_, ?_⟩
    · rw [SM2.init]
      simp [(hloop reg).1]
    · rw [SM2.init]
      simp
    · intro k svc e hmem hhook
      rw [SM2.init]
      simp only [if_neg (by simp : ¬ False)]
      exact (hloop reg).2 k svc e hmem hhook

/-- Closed instantiation of `sm_init_isolation_amended`: `SM1` with a
healthy service before a failing one, and `SM2` over the same registry. -/
theorem sm_init_isolation_amended_witness :
    SM1.init ⟨[("L", ⟨"L", Hook.succeeds, Hook.absent⟩)] ++
              ("A", ⟨"A", Hook.throws "boom", Hook.absent⟩) ::
              [("B", ⟨"B", Hook.absent, Hook.absent⟩)], false⟩ =
      (⟨[("L", ⟨"L", Hook.succeeds, Hook.absent⟩)] ++
        ("A", ⟨"A", Hook.throws "boom", Hook.absent⟩) ::
        [("B", ⟨"B", Hook.absent, Hook.absent⟩)], true⟩,
       [("L", Svc.mk "L" Hook.succeeds Hook.absent)].map Prod.fst ++ ["A"], some "boom") ∧
    (SM2.init ⟨[("A", ⟨"A", Hook.throws "boom", Hook.absent⟩),
                ("B", ⟨"B", Hook.absent, Hook.absent⟩)], false⟩).2.1 =
      [("A", Svc.mk "A" (Hook.throws "boom") Hook.absent),
       ("B", Svc.mk "B" Hook.absent Hook.absent)].map Prod.fst ∧
    SMLogEntry.errLog ("Error initializing " ++ "A" ++ ": " ++ "boom") ∈
      (SM2.init ⟨[("A", ⟨"A", Hook.throws "boom", Hook.absent⟩),
                  ("B", ⟨"B", Hook.absent, Hook.absent⟩)], false⟩).2.2 :=
  ⟨sm_init_isolation_amended.1 [("L", ⟨"L", Hook.succeeds, Hook.absent⟩)]
      [("B", ⟨"B", Hook.absent, Hook.absent⟩)] "A" ⟨"A", Hook.throws "boom", Hook.absent⟩ "boom"
      (by intro p hp err; simp at hp; rw [hp]; simp) rfl,
   (sm_init_isolation_amended.2 _).1,
   (sm_init_isolation_amended.2 _).2.2 "A" ⟨"A", Hook.throws "boom", Hook.absent⟩ "boom"
      (by simp) rfl⟩

/-- **C2 (counterexample)** — In `core/ServiceManager.ts`, `get` on a key
that was never added, after sealing, does not fail with `NotRegistered` (nor
any error): it returns `undefined`.  Likewise pre-seal `get` on a non-logger
key returns the stored value instead of throwing `NotReady`. -/
theorem sm_get_counterexample :
    SM1.get ⟨[], true⟩ "Settings" = GetResult.undef ∧
    (SM1.get ⟨[], true⟩ "Settings").isError = false ∧
    SM1.get ⟨[("Settings", ⟨"settings", Hook.absent, Hook.absent⟩)], false⟩ "Settings" =
      GetResult.ok ⟨"settings", Hook.absent, Hook.absent⟩ ∧
    (SM1.get ⟨[("Settings", ⟨"settings", Hook.absent, Hook.absent⟩)], false⟩ "Settings").isError
      = false := by
  refine ⟨rfl, rfl, rfl, rfl⟩

/-- **C2 (amended)** — The claimed `get` behaviour is that of the `App.ts`
variant (`SM2`): post-seal lookup of a never-added non-logger key throws
`NotRegistered`; any pre-seal non-logger lookup throws `NotReady`;
`get("Logger")` never throws in either state, returning the fallback logger
before sealing and the registered logger once sealed.  The `core/
ServiceManager.ts` `get` (`SM1`) raises no error in any state. -/
theorem sm_get_amended (reg : List (String × Svc)) (v : Svc) :
    (∀ key, key ≠ "Logger" → regLookup reg key = none →
      SM2.get ⟨reg, true⟩ key = GetResult.errNotRegistered key) ∧
    (∀ key, key ≠ "Logger" →
      SM2.get ⟨reg, false⟩ key = GetResult.errNotReady key) ∧
    SM2.get ⟨reg, false⟩ "Logger" = GetResult.ok fallbackLogger ∧
    (regLookup reg "Logger" = some v →
      SM2.get ⟨reg, true⟩ "Logger" = GetResult.ok v) ∧
    (∀ b : Bool, (SM2.get ⟨reg, b⟩ "Logger").isError = false) ∧
    (∀ b : Bool, ∀ key, (SM1.get ⟨reg, b⟩ key).isError = false) := by
  refine ⟨?_, ?_, ?_, ?_, ?_, ?_⟩
  · intro key hk hnone
    simp [SM2.get, hk, hnone]
  · intro key hk
    simp [SM2.get, hk]
  · simp [SM2.get]
  · intro hsome
    simp [SM2.get, hsome]
  · intro b
    cases b with
    | false => simp [SM2.get, GetResult.isError]
    | true =>
      simp only [SM2.get, if_pos rfl]
      match regLookup reg "Logger" with
      | some v => rfl
      | none => rfl
  · intro b key
    simp only [SM1.get]
    match regLookup reg key with
    | some v => rfl
    | none => rfl

/-- Closed instantiation of `sm_get_amended` on a one-entry registry. -/
theorem sm_get_amended_witness :
    SM2.get ⟨[("Logger", ⟨"logger", Hook.absent, Hook.absent⟩)], true⟩ "Settings" =
      GetResult.errNotRegistered "Settings" ∧
    SM2.get ⟨[("Logger", ⟨"logger", Hook.absent, Hook.absent⟩)], false⟩ "Settings" =
      GetResult.errNotReady "Settings" ∧
    SM2.get ⟨[("Logger", ⟨"logger", Hook.absent, Hook.absent⟩)], false⟩ "Logger" =
      GetResult.ok fallbackLogger ∧
    SM2.get ⟨[("Logger", ⟨"logger", Hook.absent, Hook.absent⟩)], true⟩ "Logger" =
      GetResult.ok ⟨"logger", Hook.absent, Hook.absent⟩ := by
  have h := sm_get_amended [("Logger", ⟨"logger", Hook.absent, Hook.absent⟩)] ⟨"logger", Hook.absent, Hook.absent⟩
  exact ⟨h.1 "Settings" (by decide) (by decide), h.2.1 "Settings" (by decide),
         h.2.2.1, h.2.2.2.1 (by decide)⟩

/-! ## Namespaces and the IPC dispatcher
(`src/main/types/abstracts/Namespace.ts`, `src/main/classes/services/IPCHandler.ts`)

Actions are async functions `(event, ...args) => Promise<...>` that settle
either to a value or to a thrown/rejected error.  The transport (`ipcMain`)
is a channel-keyed handler table: `handle` installs, `removeHandler`
removes, and an inbound call runs the installed handler. -/

/-- An `IpcMainInvokeEvent` (opaque to this subsystem). -/
abbrev IpcEvent := Nat

/-- An invocation argument (opaque to this subsystem). -/
abbrev IpcArg := Json

/-- A thrown/rejected JS error, as observed by the `catch (error: any)`
handler: either a nullish value, or a value carrying an optional string
`message` property plus its own `String(error)` rendering. -/
inductive Thrown where
  | nullish
  | err (message : Option String) (selfStr : String)

/-- A settled action result: either a structured `ActionResponse` or another
plain value (e.g. the `ping` action's string). -/
inductive Val where
  | resp (r : ActionResponse)
  | raw (s : String)

/-- An action method: settles to a value or to a thrown/rejected error. -/
abbrev ActionMethod := IpcEvent → List IpcArg → Except Thrown Val

/-- `String(error?.message ?? error ?? "Unknown error")`: a nullish error
falls through to `"Unknown error"`; a present string `message` is used;
otherwise the error's own string rendering. -/
def stringifyCaught : Thrown → String
  | .nullish => "Unknown error"
  | .err (some m) _ => m
  | .err none s => s

/-- The handler closure installed by `ipcMain.handle` in
`IPCHandler.register`: await the action; pass a settled result through
unchanged; convert a throw/rejection to `{status: 500, message: ...}`.  Its
codomain is total (`Val`, not `Except`): no exception leaves the handler. -/
def handlerFor (method : ActionMethod) : IpcEvent → List IpcArg → Val :=
  fun ev args =>
    match method ev args with
    | .ok r => r
    | .error e => Val.resp { status := 500, message := some (stringifyCaught e) }

/-- A JS own-property value looked up as `(this as any)[name]`: a callable
method or some non-callable value. -/
inductive Member where
  | fn (f : ActionMethod)
  | nonFn

/-- A namespace instance: `this.constructor.name`, the `actionRegistry`
`Set` (insertion-ordered, duplicate-free by construction), and the
instance's property table. -/
structure NamespaceM where
  name : String
  registry : List String
  members : String → Option Member

/-- `getAction(name)`: registry membership first, then the runtime
callable check on the looked-up property. -/
def NamespaceM.getAction (ns : NamespaceM) (name : String) : Option ActionMethod :=
  if name ∈ ns.registry then
    match ns.members name with
    | some (Member.fn f) => some f
    | _ => none
  else none

/-- `getActions()`: the registry, as a list. -/
def NamespaceM.getActions (ns : NamespaceM) : List String := ns.registry

/-- `getChannel(action)`: `"<TypeName>:<action>"` for registered actions,
`undefined` otherwise. -/
def NamespaceM.getChannel (ns : NamespaceM) (action : String) : Option String :=
  if action ∈ ns.registry then some (ns.name ++ ":" ++ action) else none

/-- An installed transport handler (total: see `handlerFor`). -/
abbrev HandlerFn := IpcEvent → List IpcArg → Val

/-- The `ipcMain` handler table. -/
structure IpcMain where
  handlers : List (String × HandlerFn)

/-- The empty transport. -/
def emptyIpc : IpcMain := ⟨[]⟩

/-- Drop every table entry for a channel. -/
def hremove : List (String × HandlerFn) → String → List (String × HandlerFn)
  | [], _ => []
  | (c, h) :: rest, ch => if c = ch then hremove rest ch else (c, h) :: hremove rest ch

/-- `ipcMain.removeHandler(channel)`. -/
def IpcMain.removeHandler (m : IpcMain) (ch : String) : IpcMain :=
  ⟨hremove m.handlers ch⟩

/-- `ipcMain.handle(channel, handler)` (always preceded by `removeHandler`
in `register`, so the channel is free at this point). -/
def IpcMain.handle (m : IpcMain) (ch : String) (h : HandlerFn) : IpcMain :=
  ⟨(ch, h) :: m.handlers⟩

/-- The handler the transport holds for a channel. -/
def hlookup : List (String × HandlerFn) → String → Option HandlerFn
  | [], _ => none
  | (c, h) :: rest, ch => if c = ch then some h else hlookup rest ch

/-- The handler the transport holds for a channel. -/
def IpcMain.lookupHandler (m : IpcMain) (ch : String) : Option HandlerFn :=
  hlookup m.handlers ch

/-- An inbound `invoke` on a channel: run the installed handler, if any. -/
def IpcMain.invoke (m : IpcMain) (ch : String) (ev : IpcEvent) (args : List IpcArg) :
    Option Val :=
  (m.lookupHandler ch).map (fun h => h ev args)

/-- How many entries a channel has in a handler table. -/
def hcount : List (String × HandlerFn) → String → Nat
  | [], _ => 0
  | (c, _) :: rest, ch => if c = ch then hcount rest ch + 1 else hcount rest ch

/-- How many handler-table entries a channel has (1 after a registration:
handlers never stack). -/
def countCh (m : IpcMain) (ch : String) : Nat :=
  hcount m.handlers ch

/-- The `actions.forEach(...)` loop of `IPCHandler.register`, with the
transport threaded through.  Per action: compute the channel (skip if
`undefined`), `removeHandler`, then the callable check — a drifted action
throws `Method with name <a> does not exist.`, ending the loop with the
side effects so far kept; otherwise install the wrapped handler. -/
def registerActs (ns : NamespaceM) : List String → IpcMain → IpcMain × Option String
  | [], m => (m, none)
  | a :: rest, m =>
    match ns.getChannel a with
    | none => registerActs ns rest m
    | some ch =>
      let m1 := m.removeHandler ch
      match ns.getAction a with
      | none => (m1, some ("Method with name " ++ a ++ " does not exist."))
      | some f => registerActs ns rest (m1.handle ch (handlerFor f))

/-- `IPCHandler.register(name, namespace)` (the `name` parameter is unused
by the source body, which reads the constructor name via `getChannel`). -/
def IPCHandler.register (m : IpcMain) (ns : NamespaceM) : IpcMain × Option String :=
  registerActs ns ns.getActions m

/-- The built-in `ping` action: `async ping() { return "Pong 🏓!" }`. -/
def pingAction : ActionMethod := fun _ _ => Except.ok (Val.raw "Pong 🏓!")

/-- `Set.add`: append only when absent. -/
def setInsert (l : List String) (k : String) : List String :=
  if k ∈ l then l else l ++ [k]

/-- The `actionRegistry` produced by the `@Action` decorator initializers
at construction: the inherited `ping` first, then each decorated method
name in declaration order. -/
def buildRegistry (methodNames : List String) : List String :=
  methodNames.foldl setInsert ["ping"]

/-- First-match lookup among the declared methods. -/
def assocFind : List (String × ActionMethod) → String → Option ActionMethod
  | [], _ => none
  | (k', f) :: rest, k => if k' = k then some f else assocFind rest k

/-- A namespace as produced by construction-time decorator registration:
every registered name is a decorated instance method (or the inherited
`ping`), so the registry and the property table cannot drift. -/
def mkNamespace (name : String) (methods : List (String × ActionMethod)) : NamespaceM :=
  { name := name,
    registry := buildRegistry (methods.map Prod.fst),
    members := fun k =>
      match assocFind methods k with
      | some f => some (Member.fn f)
      | none => if k = "ping" then some (Member.fn pingAction) else none }

theorem string_append_cancel {s a b : String} (h : s ++ a = s ++ b) : a = b := by
  have hd : (s ++ a).data = (s ++ b).data := by rw [h]
  rw [String.data_append, String.data_append] at hd
  exact String.ext (List.append_cancel_left hd)

/-- Two channels of one namespace coincide only for the same action name. -/
theorem channel_inj {name a b : String}
    (h : name ++ ":" ++ a = name ++ ":" ++ b) : a = b :=
  string_append_cancel h

theorem lookup_removeHandler_ne (m : IpcMain) {c ch : String} (h : c ≠ ch) :
    (m.removeHandler c).lookupHandler ch = m.lookupHandler ch := by
  obtain ⟨l⟩ := m
  show hlookup (hremove l c) ch = hlookup l ch
  induction l with
  | nil => rfl
  | cons p rest ih =>
    obtain ⟨pc, ph⟩ := p
    by_cases hpc : pc = c
    · have hpcch : pc ≠ ch := hpc ▸ h
      simp [hremove, hlookup, hpc, hpcch, h, ih]
    · by_cases hch : pc = ch
      · simp [hremove, hlookup, hpc, hch, Ne.symm h]
      · simp [hremove, hlookup, hpc, hch, ih]

theorem count_removeHandler_self (m : IpcMain) (c : String) :
    countCh (m.removeHandler c) c = 0 := by
  obtain ⟨l⟩ := m
  show hcount (hremove l c) c = 0
  induction l with
  | nil => rfl
  | cons p rest ih =>
    obtain ⟨pc, ph⟩ := p
    by_cases hpc : pc = c
    · simp [hremove, hpc, ih]
    · simp [hremove, hcount, hpc, ih]

theorem count_removeHandler_ne (m : IpcMain) {c ch : String} (h : c ≠ ch) :
    countCh (m.removeHandler c) ch = countCh m ch := by
  obtain ⟨l⟩ := m
  show hcount (hremove l c) ch = hcount l ch
  induction l with
  | nil => rfl
  | cons p rest ih =>
    obtain ⟨pc, ph⟩ := p
    by_cases hpc : pc = c
    · have hpcch : pc ≠ ch := hpc ▸ h
      simp [hremove, hcount, hpc, hpcch, h, ih]
    · by_cases hch : pc = ch
      · simp [hremove, hcount, hpc, hch, Ne.symm h, ih]
      · simp [hremove, hcount, hpc, hch, ih]

theorem lookup_handle_self (m : IpcMain) (c : String) (h : HandlerFn) :
    (m.handle c h).lookupHandler c = some h := by
  simp [IpcMain.handle, IpcMain.lookupHandler, hlookup]

theorem lookup_handle_ne (m : IpcMain) {c ch : String} (h : HandlerFn) (hne : c ≠ ch) :
    (m.handle c h).lookupHandler ch = m.lookupHandler ch := by
  simp [IpcMain.handle, IpcMain.lookupHandler, hlookup, hne]

theorem count_handle_self (m : IpcMain) (c : String) (h : HandlerFn) :
    countCh (m.handle c h) c = countCh m c + 1 := by
  simp [IpcMain.handle, countCh, hcount]

theorem count_handle_ne (m : IpcMain) {c ch : String} (h : HandlerFn) (hne : c ≠ ch) :
    countCh (m.handle c h) ch = countCh m ch := by
  simp [IpcMain.handle, countCh, hcount, hne]

/-- `getChannel` at a registered action. -/
theorem getChannel_mem {ns : NamespaceM} {a : String} (h : a ∈ ns.registry) :
    ns.getChannel a = some (ns.name ++ ":" ++ a) := by
  simp [NamespaceM.getChannel, h]

/-- A register pass leaves any channel outside its action set untouched
(whether or not the loop ended in the drift error). -/
theorem registerActs_untouched (ns : NamespaceM) (acts : List String) (m : IpcMain)
    (ch : String) (h : ∀ b ∈ acts, ns.name ++ ":" ++ b ≠ ch) :
    (registerActs ns acts m).1.lookupHandler ch = m.lookupHandler ch ∧
    countCh (registerActs ns acts m).1 ch = countCh m ch := by
  induction acts generalizing m with
  | nil => exact ⟨rfl, rfl⟩
  | cons a rest ih =>
    have ha : ns.name ++ ":" ++ a ≠ ch := h a (by simp)
    have hrest : ∀ b ∈ rest, ns.name ++ ":" ++ b ≠ ch := fun b hb => h b (by simp [hb])
    rw [registerActs]
    match hc : ns.getChannel a with
    | none => exact ih m hrest
    | some c =>
      have hcv : c = ns.name ++ ":" ++ a := by
        by_cases hm : a ∈ ns.registry
        · rw [getChannel_mem hm] at hc
          exact (Option.some.inj hc).symm
        · simp [NamespaceM.getChannel, hm] at hc
      have hcch : c ≠ ch := hcv ▸ ha
      match hf : ns.getAction a with
      | none =>
        exact ⟨lookup_removeHandler_ne m hcch, count_removeHandler_ne m hcch⟩
      | some f =>
        have ihr := ih ((m.removeHandler c).handle c (handlerFor f)) hrest
        refine ⟨?_, ?_⟩
        · rw [ihr.1, lookup_handle_ne _ _ hcch, lookup_removeHandler_ne m hcch]
        · rw [ihr.2, count_handle_ne _ _ hcch, count_removeHandler_ne m hcch]

/-- **C3** — For every handler installed by `IPCHandler.register` (each is
`handlerFor method` for the bound action, see `registerActs`): when the
action settles successfully its result is returned unchanged; when it
throws or rejects, the handler returns `{status: 500, message:
String(error?.message ?? error ?? "Unknown error")}`.  `handlerFor`'s
codomain is total (`Val`), so no exception or rejection can reach the
transport or the caller. -/
theorem ipc_handler_translation (method : ActionMethod) (ev : IpcEvent)
    (args : List IpcArg) (r : Val) (e : Thrown) :
    (method ev args = Except.ok r → handlerFor method ev args = r) ∧
    (method ev args = Except.error e →
      handlerFor method ev args =
        Val.resp { status := 500, message := some (stringifyCaught e) }) := by
  constructor
  · intro h
    simp [handlerFor, h]
  · intro h
    simp [handlerFor, h]

/-- An action that settles successfully. -/
def okAction : ActionMethod := fun _ _ => Except.ok (Val.raw "hi")

/-- An action that rejects with an `Error` carrying a message. -/
def failAction : ActionMethod := fun _ _ =>
  Except.error (Thrown.err (some "oops") "Error: oops")

/-- Closed instantiation of `ipc_handler_translation` on a succeeding and a
failing action. -/
theorem ipc_handler_translation_witness :
    handlerFor okAction 0 [] = Val.raw "hi" ∧
    handlerFor failAction 0 [] =
      Val.resp { status := 500, message := some (stringifyCaught
        (Thrown.err (some "oops") "Error: oops")) } :=
  ⟨(ipc_handler_translation okAction 0 [] (Val.raw "hi") Thrown.nullish).1 rfl,
   (ipc_handler_translation failAction 0 [] (Val.raw "hi")
      (Thrown.err (some "oops") "Error: oops")).2 rfl⟩

/-- After a successful register pass over a duplicate-free action list, each
action with a callable member has exactly its wrapped handler installed,
exactly once. -/
theorem registerActs_ok_lookup (ns : NamespaceM) (acts : List String)
    (m m' : IpcMain) (a : String) (f : ActionMethod)
    (hnd : acts.Nodup) (hsub : ∀ b ∈ acts, b ∈ ns.registry) (ha : a ∈ acts)
    (hf : ns.getAction a = some f)
    (hok : registerActs ns acts m = (m', none)) :
    m'.lookupHandler (ns.name ++ ":" ++ a) = some (handlerFor f) ∧
    countCh m' (ns.name ++ ":" ++ a) = 1 := by
  induction acts generalizing m with
  | nil => simp at ha
  | cons b rest ih =>
    have hbreg : b ∈ ns.registry := hsub b (by simp)
    rcases List.mem_cons.mp ha with hab | harest
    · subst hab
      simp only [registerActs, getChannel_mem hbreg, hf] at hok
      have hfree : ∀ b' ∈ rest, ns.name ++ ":" ++ b' ≠ ns.name ++ ":" ++ a := by
        intro b' hb' hc
        have : b' = a := channel_inj hc
        exact (List.nodup_cons.mp hnd).1 (this ▸ hb')
      have hun := registerActs_untouched ns rest
        (((m.removeHandler (ns.name ++ ":" ++ a)).handle (ns.name ++ ":" ++ a)
          (handlerFor f))) (ns.name ++ ":" ++ a) hfree
      rw [hok] at hun
      refine ⟨?_, ?_⟩
      · rw [hun.1, lookup_handle_self]
      · rw [hun.2, count_handle_self, count_removeHandler_self]
    · match hg : ns.getAction b with
      | none =>
        simp only [registerActs, getChannel_mem hbreg, hg] at hok
        exact absurd (congrArg Prod.snd hok) (by simp)
      | some g =>
        simp only [registerActs, getChannel_mem hbreg, hg] at hok
        exact ih _ (List.nodup_cons.mp hnd).2 (fun c hc => hsub c (by simp [hc]))
          harest hok

/-- **C7** — When two registrations produce the same channel string (here:
two namespaces with the same constructor name both exposing action `a`),
the later `IPCHandler.register` replaces the earlier handler: invoking the
channel afterwards runs only the action installed second, and the
channel has exactly one handler-table entry (no stacking). -/
theorem ipc_register_replaces (m m1 m2 : IpcMain) (ns1 ns2 : NamespaceM)
    (a : String) (f : ActionMethod) (ev : IpcEvent) (args : List IpcArg)
    (_hsame : ns1.name = ns2.name) (_ha1 : a ∈ ns1.registry)
    (_h1 : IPCHandler.register m ns1 = (m1, none))
    (h2 : IPCHandler.register m1 ns2 = (m2, none))
    (hnd : ns2.registry.Nodup) (ha : a ∈ ns2.registry)
    (hf : ns2.getAction a = some f) :
    m2.invoke (ns2.name ++ ":" ++ a) ev args = some (handlerFor f ev args) ∧
    countCh m2 (ns2.name ++ ":" ++ a) = 1 := by
  have hl := registerActs_ok_lookup ns2 ns2.registry m1 m2 a f hnd
    (fun b hb => hb) ha hf h2
  refine ⟨?_, hl.2⟩
  rw [IpcMain.invoke, hl.1]
  rfl

/-- A `Settings:getUser` action (first registration). -/
def settingsActA : ActionMethod := fun _ _ => Except.ok (Val.resp { status := 200 })

/-- A `Settings:getUser` action (second registration). -/
def settingsActB : ActionMethod := fun _ _ => Except.ok (Val.resp { status := 201 })

/-- Closed instantiation of `ipc_register_replaces`: two namespaces named
`Settings`, both exposing `getUser`, registered one after the other. -/
theorem ipc_register_replaces_witness :
    (IPCHandler.register
        (IPCHandler.register emptyIpc (mkNamespace "Settings" [("getUser", settingsActA)])).1
        (mkNamespace "Settings" [("getUser", settingsActB)])).1.invoke
      ((mkNamespace "Settings" [("getUser", settingsActB)]).name ++ ":" ++ "getUser") 0 []
      = some (handlerFor settingsActB 0 []) ∧
    countCh (IPCHandler.register
        (IPCHandler.register emptyIpc (mkNamespace "Settings" [("getUser", settingsActA)])).1
        (mkNamespace "Settings" [("getUser", settingsActB)])).1
      ((mkNamespace "Settings" [("getUser", settingsActB)]).name ++ ":" ++ "getUser") = 1 :=
  ipc_register_replaces emptyIpc
    (IPCHandler.register emptyIpc (mkNamespace "Settings" [("getUser", settingsActA)])).1
    (IPCHandler.register
      (IPCHandler.register emptyIpc (mkNamespace "Settings" [("getUser", settingsActA)])).1
      (mkNamespace "Settings" [("getUser", settingsActB)])).1
    (mkNamespace "Settings" [("getUser", settingsActA)])
    (mkNamespace "Settings" [("getUser", settingsActB)])
    "getUser" settingsActB 0 [] rfl (by decide) rfl rfl (by decide) (by decide) rfl

theorem mem_setInsert (init : List String) (b a : String) :
    a ∈ setInsert init b ↔ a ∈ init ∨ a = b := by
  unfold setInsert
  by_cases hb : b ∈ init
  · simp only [if_pos hb]
    constructor
    · exact fun h => Or.inl h
    · rintro (h | rfl)
      · exact h
      · exact hb
  · simp [if_neg hb, List.mem_append]

theorem mem_foldl_setInsert (l init : List String) (a : String) :
    a ∈ l.foldl setInsert init ↔ a ∈ init ∨ a ∈ l := by
  induction l generalizing init with
  | nil => simp
  | cons b rest ih =>
    rw [List.foldl_cons, ih, mem_setInsert]
    simp only [List.mem_cons]
    tauto

theorem assocFind_isSome {methods : List (String × ActionMethod)} {a : String}
    (h : a ∈ methods.map Prod.fst) : (assocFind methods a).isSome = true := by
  induction methods with
  | nil => simp at h
  | cons p rest ih =>
    obtain ⟨pk, pf⟩ := p
    by_cases hk : pk = a
    · simp [assocFind, hk]
    · rw [List.map_cons, List.mem_cons] at h
      rcases h with h | h

      · exact absurd h.symm hk
      · simp only [assocFind, if_neg hk]
        exact ih h

/-- **C8** — For a namespace built by construction-time decorator
registration: every name in the action registry yields
`getChannel = "<TypeName>:<name>"` and a callable from `getAction`; a name
outside the registry yields nothing from either, and `IPCHandler.register`
leaves that name's channel exactly as it was in the transport. -/
theorem namespace_registry_consistency (name : String)
    (methods : List (String × ActionMethod)) (a : String) :
    (a ∈ (mkNamespace name methods).registry →
      (mkNamespace name methods).getChannel a = some (name ++ ":" ++ a) ∧
      ((mkNamespace name methods).getAction a).isSome = true) ∧
    (a ∉ (mkNamespace name methods).registry →
      (mkNamespace name methods).getChannel a = none ∧
      (mkNamespace name methods).getAction a = none ∧
      ∀ m : IpcMain,
        (IPCHandler.register m (mkNamespace name methods)).1.lookupHandler
          (name ++ ":" ++ a) = m.lookupHandler (name ++ ":" ++ a)) := by
  constructor
  · intro hmem
    refine ⟨getChannel_mem hmem, ?_⟩
    have hor : a = "ping" ∨ a ∈ methods.map Prod.fst := by
      have h2 := hmem
      simp only [mkNamespace, buildRegistry] at h2
      rcases (mem_foldl_setInsert _ _ _).mp h2 with h | h
      · simp at h
        exact Or.inl h
      · exact Or.inr h
    rw [NamespaceM.getAction, if_pos hmem]
    match hfind : assocFind methods a with
    | some f =>
      simp [mkNamespace, hfind]
    | none =>
      have hping : a = "ping" := by
        rcases hor with h | h
        · exact h
        · have hsome := assocFind_isSome h
          rw [hfind] at hsome
          simp at hsome
      subst hping
      simp [mkNamespace, hfind]
  · intro hmem
    refine ⟨by simp [NamespaceM.getChannel, hmem], by simp [NamespaceM.getAction, hmem], ?_⟩
    intro m
    exact (registerActs_untouched (mkNamespace name methods)
      (mkNamespace name methods).registry m (name ++ ":" ++ a)
      (fun b hb hc => hmem ((channel_inj hc) ▸ hb))).1

/-- Closed instantiation of `namespace_registry_consistency`: the registered
`getUser` action and the never-registered `missing` name. -/
theorem namespace_registry_consistency_witness :
    ((mkNamespace "Settings" [("getUser", settingsActA)]).getChannel "getUser" =
        some ("Settings" ++ ":" ++ "getUser") ∧
      ((mkNamespace "Settings" [("getUser", settingsActA)]).getAction "getUser").isSome
        = true) ∧
    ((mkNamespace "Settings" [("getUser", settingsActA)]).getChannel "missing" = none ∧
      (mkNamespace "Settings" [("getUser", settingsActA)]).getAction "missing" = none ∧
      ∀ m : IpcMain,
        (IPCHandler.register m (mkNamespace "Settings" [("getUser", settingsActA)])).1.lookupHandler
          ("Settings" ++ ":" ++ "missing") = m.lookupHandler ("Settings" ++ ":" ++ "missing")) :=
  ⟨(namespace_registry_consistency "Settings" [("getUser", settingsActA)] "getUser").1
      (by decide),
   (namespace_registry_consistency "Settings" [("getUser", settingsActA)] "missing").2
      (by decide)⟩

/-- The register loop hits a drifted action `a` after the healthy prefix
`pre`: the error is raised and the channels of the actions after `a` are
left exactly as they were. -/
theorem registerActs_err (ns : NamespaceM) (pre post : List String) (a : String)
    (m : IpcMain)
    (hsub : ∀ b ∈ pre ++ a :: post, b ∈ ns.registry)
    (hnd : (pre ++ a :: post).Nodup)
    (hpre : ∀ b ∈ pre, (ns.getAction b).isSome = true)
    (ha : ns.getAction a = none) :
    (registerActs ns (pre ++ a :: post) m).2 =
      some ("Method with name " ++ a ++ " does not exist.") ∧
    ∀ b ∈ post, (registerActs ns (pre ++ a :: post) m).1.lookupHandler
      (ns.name ++ ":" ++ b) = m.lookupHandler (ns.name ++ ":" ++ b) := by
  induction pre generalizing m with
  | nil =>
    have hareg : a ∈ ns.registry := hsub a (by simp)
    simp only [List.nil_append] at hnd ⊢
    simp only [registerActs, getChannel_mem hareg, ha]
    refine ⟨by simp, ?_⟩
    intro b hb
    have hba : a ≠ b := by
      intro h
      exact (List.nodup_cons.mp hnd).1 (h ▸ hb)
    exact lookup_removeHandler_ne m (fun hc => hba (channel_inj hc))
  | cons p ps ih =>
    have hpreg : p ∈ ns.registry := hsub p (by simp)
    have hpsome := hpre p (by simp)
    match hg : ns.getAction p with
    | none => rw [hg] at hpsome; simp at hpsome
    | some g =>
      simp only [List.cons_append] at hnd ⊢
      simp only [registerActs, getChannel_mem hpreg, hg]
      have ihr := ih ((m.removeHandler (ns.name ++ ":" ++ p)).handle
          (ns.name ++ ":" ++ p) (handlerFor g))
        (fun b hb => hsub b (by simp [hb]))
        (List.nodup_cons.mp hnd).2
        (fun b hb => hpre b (by simp [hb]))
      refine ⟨ihr.1, ?_⟩
      intro b hb
      rw [ihr.2 b hb]
      have hpb : p ≠ b := by
        intro h
        exact (List.nodup_cons.mp hnd).1 (h ▸ (by simp [hb] : b ∈ ps ++ a :: post))
      rw [lookup_handle_ne _ _ (fun hc => hpb (channel_inj hc)),
        lookup_removeHandler_ne m (fun hc => hpb (channel_inj hc))]

/-- **C9** — If an action name in the registry does not resolve to a
callable member (registry/member drift), `IPCHandler.register` throws
`Method with name <a> does not exist.` synchronously and aborts the loop:
the channels of the remaining (post-drift) actions are never bound, instead
of the drifted action being skipped. -/
theorem ipc_register_drift (ns : NamespaceM) (m : IpcMain) (pre post : List String)
    (a : String)
    (hreg : ns.registry = pre ++ a :: post)
    (hnd : ns.registry.Nodup)
    (hpre : ∀ b ∈ pre, (ns.getAction b).isSome = true)
    (ha : ns.getAction a = none) :
    (IPCHandler.register m ns).2 =
      some ("Method with name " ++ a ++ " does not exist.") ∧
    ∀ b ∈ post, (IPCHandler.register m ns).1.lookupHandler (ns.name ++ ":" ++ b) =
      m.lookupHandler (ns.name ++ ":" ++ b) := by
  have h := registerActs_err ns pre post a m
    (by rw [← hreg]; exact fun b hb => hb) (hreg ▸ hnd) hpre ha
  rw [IPCHandler.register, NamespaceM.getActions, hreg]
  exact h

/-- A healthy action for the drift scenario. -/
def goodAct : ActionMethod := fun _ _ => Except.ok (Val.raw "ok")

/-- A namespace with registry/member drift: `bad` is registered but its
member is not callable. -/
def brokenNs : NamespaceM :=
  { name := "Broken",
    registry := ["good", "bad", "later"],
    members := fun k =>
      if k = "good" then some (Member.fn goodAct)
      else if k = "bad" then some Member.nonFn
      else if k = "later" then some (Member.fn goodAct)
      else none }

/-- Closed instantiation of `ipc_register_drift` on `brokenNs`. -/
theorem ipc_register_drift_witness :
    (IPCHandler.register emptyIpc brokenNs).2 =
      some ("Method with name " ++ "bad" ++ " does not exist.") ∧
    ∀ b ∈ ["later"], (IPCHandler.register emptyIpc brokenNs).1.lookupHandler
      (brokenNs.name ++ ":" ++ b) = emptyIpc.lookupHandler (brokenNs.name ++ ":" ++ b) :=
  ipc_register_drift brokenNs emptyIpc ["good"] ["later"] "bad" rfl (by decide)
    (by intro b hb; simp at hb; rw [hb]; rfl) rfl

/-! ## Settings (`src/main/classes/services/Settings.ts`)

`deepMerge` iterates `Object.entries(patch)` over a copy of the base
object: per key, two plain (non-null, non-array) objects merge recursively,
anything else is replaced by the patch value.  `updateUser`/`updateProject`
read the stored JSON (empty object on a missing or malformed file), merge
the patch in, persist the result atomically, and return it. -/

/-- The source's `isPlainObject` applied to a possibly-`undefined` lookup. -/
def isPlainObjectOpt : Option Json → Bool
  | some j => isPlainObjectJ j
  | none => false

mutual

/-- The `for (const [key, value] of Object.entries(patch))` loop of
`deepMerge`, threading the `output` copy of the base object through. -/
def deepMerge : List (String × Json) → List (String × Json) → List (String × Json)
  | base, [] => base
  | base, (k, v) :: rest => deepMerge (setKey base k (mergeVal (getKey base k) v)) rest

/-- The loop body's choice: `isPlainObject(existing) && isPlainObject(value)
? deepMerge(existing, value) : value`. -/
def mergeVal : Option Json → Json → Json
  | some (Json.obj eo), Json.obj po => Json.obj (deepMerge eo po)
  | _, v => v

end

theorem getKey_setKey_self (l : List (String × Json)) (k : String) (v : Json) :
    getKey (setKey l k v) k = some v := by
  induction l with
  | nil => simp [setKey, getKey]
  | cons p rest ih =>
    obtain ⟨k', v'⟩ := p
    by_cases h : k' = k
    · simp [setKey, getKey, h]
    · simp [setKey, getKey, h, ih]

theorem getKey_setKey_ne (l : List (String × Json)) {k k' : String} (v : Json)
    (h : k' ≠ k) : getKey (setKey l k' v) k = getKey l k := by
  induction l with
  | nil => simp [setKey, getKey, h]
  | cons p rest ih =>
    obtain ⟨k0, v0⟩ := p
    by_cases h0 : k0 = k'
    · subst h0
      simp [setKey, getKey, h]
    · by_cases hk : k0 = k
      · simp [setKey, getKey, h0, hk, Ne.symm h]
      · simp [setKey, getKey, h0, hk, ih]

theorem getKey_eq_none {l : List (String × Json)} {k : String}
    (h : k ∉ l.map Prod.fst) : getKey l k = none := by
  induction l with
  | nil => rfl
  | cons p rest ih =>
    obtain ⟨k', v'⟩ := p
    simp only [List.map_cons, List.mem_cons] at h
    push_neg at h
    have hne : ¬ k' = k := fun hh => h.1 hh.symm
    simp [getKey, hne, ih h.2]

/-- Per-key behaviour of the merge loop (for a duplicate-free patch, as JS
object entries always are). -/
theorem getKey_deepMerge (patch : List (String × Json))
    (hp : (patch.map Prod.fst).Nodup) (base : List (String × Json)) (k : String) :
    (∀ v, getKey patch k = some v →
      getKey (deepMerge base patch) k = some (mergeVal (getKey base k) v)) ∧
    (getKey patch k = none → getKey (deepMerge base patch) k = getKey base k) := by
  induction patch generalizing base with
  | nil =>
    exact ⟨fun v hv => by simp [getKey] at hv, fun _ => by simp [deepMerge]⟩
  | cons p rest ih =>
    obtain ⟨k0, v0⟩ := p
    simp only [List.map_cons, List.nodup_cons] at hp
    by_cases hkk : k0 = k
    · subst hkk
      constructor
      · intro v hv
        rw [getKey, if_pos rfl] at hv
        cases hv
        simp only [deepMerge]
        have hnone : getKey rest k0 = none := getKey_eq_none hp.1
        rw [(ih hp.2 _).2 hnone, getKey_setKey_self]
      · intro hv
        rw [getKey, if_pos rfl] at hv
        cases hv
    · constructor
      · intro v hv
        rw [getKey, if_neg hkk] at hv
        simp only [deepMerge]
        rw [(ih hp.2 _).1 v hv, getKey_setKey_ne _ _ hkk]
      · intro hv
        rw [getKey, if_neg hkk] at hv
        simp only [deepMerge]
        rw [(ih hp.2 _).2 hv, getKey_setKey_ne _ _ hkk]

/-- When not both sides are plain objects, the patch value replaces. -/
theorem mergeVal_replace {existing : Option Json} {v : Json}
    (h : (isPlainObjectOpt existing && isPlainObjectJ v) = false) :
    mergeVal existing v = v := by
  match existing, v with
  | none, v => rw [mergeVal]; simp
  | some Json.null, v => rw [mergeVal]; simp
  | some (Json.bool b), v => rw [mergeVal]; simp
  | some (Json.num n), v => rw [mergeVal]; simp
  | some (Json.str s), v => rw [mergeVal]; simp
  | some (Json.arr xs), v => rw [mergeVal]; simp
  | some (Json.obj eo), Json.null => rw [mergeVal]; simp
  | some (Json.obj eo), Json.bool b => rw [mergeVal]; simp
  | some (Json.obj eo), Json.num n => rw [mergeVal]; simp
  | some (Json.obj eo), Json.str s => rw [mergeVal]; simp
  | some (Json.obj eo), Json.arr xs => rw [mergeVal]; simp
  | some (Json.obj eo), Json.obj po => simp [isPlainObjectOpt, isPlainObjectJ] at h

/-- The Settings service's stored files: the user-scope settings object
(`none` = missing or malformed, read back as `{}`) and the per-project
settings objects keyed by project root. -/
structure SettingsState where
  userFile : Option (List (String × Json))
  projectFiles : List (String × List (String × Json))

/-- `safeReadJson`: the parsed object, or `{}` when unavailable. -/
def safeReadJson (file : Option (List (String × Json))) : List (String × Json) :=
  file.getD []

/-- The stored settings object of one project root. -/
def projLookup : List (String × List (String × Json)) → String →
    Option (List (String × Json))
  | [], _ => none
  | (r, f) :: rest, root => if r = root then some f else projLookup rest root

/-- `writeAtomic` for one project root. -/
def projSet : List (String × List (String × Json)) → String →
    List (String × Json) → List (String × List (String × Json))
  | [], root, obj => [(root, obj)]
  | (r, f) :: rest, root, obj =>
    if r = root then (root, obj) :: rest else (r, f) :: projSet rest root obj

/-- `Settings.updateUser(patch)`: read, deep-merge, persist, return. -/
def Settings.updateUser (st : SettingsState) (patch : List (String × Json)) :
    SettingsState × List (String × Json) :=
  let current := safeReadJson st.userFile
  let updated := deepMerge current patch
  ({ st with userFile := some updated }, updated)

/-- `Settings.updateProject(projectRoot, patch)`: read, deep-merge, persist
under the project root, return. -/
def Settings.updateProject (st : SettingsState) (root : String)
    (patch : List (String × Json)) : SettingsState × List (String × Json) :=
  let current := safeReadJson (projLookup st.projectFiles root)
  let updated := deepMerge current patch
  ({ st with projectFiles := projSet st.projectFiles root updated }, updated)

theorem projLookup_projSet_self (l : List (String × List (String × Json)))
    (root : String) (obj : List (String × Json)) :
    projLookup (projSet l root obj) root = some obj := by
  induction l with
  | nil => simp [projSet, projLookup]
  | cons p rest ih =>
    obtain ⟨r, f⟩ := p
    by_cases h : r = root
    · simp [projSet, projLookup, h]
    · simp [projSet, projLookup, h, ih]

/-- **C10** — `updateUser`/`updateProject` deep-merge the stored object with
the patch, persist the merged object and return it; per patch key, two
plain non-array objects merge recursively (`mergeVal`), anything else —
arrays and primitives included — is replaced, never concatenated; keys
absent from the patch keep their stored value.  (The merge is a pure
function of the stored object and the patch: the base object is read, never
written.) -/
theorem settings_deepmerge_spec (st : SettingsState) (patch : List (String × Json))
    (root : String) (hp : (patch.map Prod.fst).Nodup) :
    ((Settings.updateUser st patch).2 = deepMerge (safeReadJson st.userFile) patch ∧
     (Settings.updateUser st patch).1.userFile = some ((Settings.updateUser st patch).2)) ∧
    ((Settings.updateProject st root patch).2 =
        deepMerge (safeReadJson (projLookup st.projectFiles root)) patch ∧
     projLookup ((Settings.updateProject st root patch).1.projectFiles) root =
        some ((Settings.updateProject st root patch).2)) ∧
    (∀ base k eo po, getKey patch k = some (Json.obj po) →
      getKey base k = some (Json.obj eo) →
      getKey (deepMerge base patch) k = some (Json.obj (deepMerge eo po))) ∧
    (∀ base k v, getKey patch k = some v →
      (isPlainObjectOpt (getKey base k) && isPlainObjectJ v) = false →
      getKey (deepMerge base patch) k = some v) ∧
    (∀ base k, getKey patch k = none →
      getKey (deepMerge base patch) k = getKey base k) := by
  refine ⟨⟨rfl, rfl⟩, ⟨rfl, projLookup_projSet_self _ _ _⟩, ?_, ?_, ?_⟩
  · intro base k eo po hv hbase
    rw [(getKey_deepMerge patch hp base k).1 _ hv, hbase]
    rfl
  · intro base k v hv hflat
    rw [(getKey_deepMerge patch hp base k).1 _ hv, mergeVal_replace hflat]
  · intro base k hv
    exact (getKey_deepMerge patch hp base k).2 hv

/-- Closed instantiation of `settings_deepmerge_spec`: second update of the
repo's own `Settings` test (`{theme, options: {a: 1}, arr: [1, 2, 3]}`
patched with `{options: {b: 2}, arr: [9]}`). -/
theorem settings_deepmerge_spec_witness :
    ((Settings.updateUser
        ⟨some [("theme", Json.str "dark"), ("options", Json.obj [("a", Json.num 1)]),
               ("arr", Json.arr [Json.num 1, Json.num 2, Json.num 3])], []⟩
        [("options", Json.obj [("b", Json.num 2)]), ("arr", Json.arr [Json.num 9])]).2 =
      deepMerge (safeReadJson (some [("theme", Json.str "dark"),
          ("options", Json.obj [("a", Json.num 1)]),
          ("arr", Json.arr [Json.num 1, Json.num 2, Json.num 3])]))
        [("options", Json.obj [("b", Json.num 2)]), ("arr", Json.arr [Json.num 9])] ∧
     (Settings.updateUser
        ⟨some [("theme", Json.str "dark"), ("options", Json.obj [("a", Json.num 1)]),
               ("arr", Json.arr [Json.num 1, Json.num 2, Json.num 3])], []⟩
        [("options", Json.obj [("b", Json.num 2)]), ("arr", Json.arr [Json.num 9])]).1.userFile =
      some ((Settings.updateUser
        ⟨some [("theme", Json.str "dark"), ("options", Json.obj [("a", Json.num 1)]),
               ("arr", Json.arr [Json.num 1, Json.num 2, Json.num 3])], []⟩
        [("options", Json.obj [("b", Json.num 2)]), ("arr", Json.arr [Json.num 9])]).2)) ∧
    ((Settings.updateProject
        ⟨some [("theme", Json.str "dark"), ("options", Json.obj [("a", Json.num 1)]),
               ("arr", Json.arr [Json.num 1, Json.num 2, Json.num 3])], []⟩ "root"
        [("options", Json.obj [("b", Json.num 2)]), ("arr", Json.arr [Json.num 9])]).2 =
      deepMerge (safeReadJson (projLookup [] "root"))
        [("options", Json.obj [("b", Json.num 2)]), ("arr", Json.arr [Json.num 9])] ∧
     projLookup ((Settings.updateProject
        ⟨some [("theme", Json.str "dark"), ("options", Json.obj [("a", Json.num 1)]),
               ("arr", Json.arr [Json.num 1, Json.num 2, Json.num 3])], []⟩ "root"
        [("options", Json.obj [("b", Json.num 2)]), ("arr", Json.arr [Json.num 9])]).1.projectFiles)
        "root" =
      some ((Settings.updateProject
        ⟨some [("theme", Json.str "dark"), ("options", Json.obj [("a", Json.num 1)]),
               ("arr", Json.arr [Json.num 1, Json.num 2, Json.num 3])], []⟩ "root"
        [("options", Json.obj [("b", Json.num 2)]), ("arr", Json.arr [Json.num 9])]).2)) ∧
    (∀ base k eo po,
      getKey [("options", Json.obj [("b", Json.num 2)]), ("arr", Json.arr [Json.num 9])] k =
        some (Json.obj po) →
      getKey base k = some (Json.obj eo) →
      getKey (deepMerge base [("options", Json.obj [("b", Json.num 2)]),
          ("arr", Json.arr [Json.num 9])]) k = some (Json.obj (deepMerge eo po))) ∧
    (∀ base k v,
      getKey [("options", Json.obj [("b", Json.num 2)]), ("arr", Json.arr [Json.num 9])] k =
        some v →
      (isPlainObjectOpt (getKey base k) && isPlainObjectJ v) = false →
      getKey (deepMerge base [("options", Json.obj [("b", Json.num 2)]),
          ("arr", Json.arr [Json.num 9])]) k = some v) ∧
    (∀ base k,
      getKey [("options", Json.obj [("b", Json.num 2)]), ("arr", Json.arr [Json.num 9])] k =
        none →
      getKey (deepMerge base [("options", Json.obj [("b", Json.num 2)]),
          ("arr", Json.arr [Json.num 9])]) k = getKey base k) :=
  settings_deepmerge_spec
    ⟨some [("theme", Json.str "dark"), ("options", Json.obj [("a", Json.num 1)]),
           ("arr", Json.arr [Json.num 1, Json.num 2, Json.num 3])], []⟩
    [("options", Json.obj [("b", Json.num 2)]), ("arr", Json.arr [Json.num 9])]
    "root" (by decide)

end Synta
